import Mathlib

/-
Verification development for scripts/debug-fb-www.js: a shallow embedding of
the debugging harness (component list loading, the error handler, the
compiler invocation wrapper, the evaluation tree renderer and the summary
printer), together with theorems about its observable behavior.

Conventions of the embedding:
- JavaScript strings are Lean String values; console output is modelled as a
  list of strings, one entry per console.log / console.error call.
- The JS Map (insertion ordered, set updates in place) is modelled as an
  association list with mapGet / mapSet.
- chalk color wrappers only add ANSI color codes around the same text; they
  are modelled as the identity, so the three color branches of the renderer
  collapse to a single uncolored line.
- A JS value that can be an array, a node record, or undefined is the
  inductive JVal; the constructor JVal.undef models undefined (an absent
  children field or any other non-array, non-record value).
- A thrown TypeError in the renderer is modelled by Option.none.
-/

namespace DebugFbWww

/-- The value stored for a tracked component: the string "missing", or a JS
array of status strings. -/
inductive CStatus where
  | missing : CStatus
  | seq : List String → CStatus
deriving DecidableEq, Repr

/-- Insertion-ordered string-keyed map, modelling the JS Map `components`. -/
abbrev ComponentMap := List (String × CStatus)

/-- JS Map.prototype.get. -/
def mapGet : ComponentMap → String → Option CStatus
  | [], _ => none
  | (k, v) :: rest, n => if k = n then some v else mapGet rest n

/-- JS Map.prototype.set: updates an existing key in place (keeping its
position in iteration order), otherwise appends the new entry. -/
def mapSet : ComponentMap → String → CStatus → ComponentMap
  | [], n, v => [(n, v)]
  | (k, w) :: rest, n, v => if k = n then (n, v) :: rest else (k, w) :: mapSet rest n v

/-- A compiler diagnostic: severity and message (lines 27-37 of the source
read only these two fields). -/
structure Diagnostic where
  severity : String
  message : String
deriving DecidableEq, Repr

/-- The continuation instruction the error handler returns to the compiler. -/
inductive HandlerResult where
  | recover : HandlerResult
  | fail : HandlerResult
deriving DecidableEq, Repr

/-- The errorHandler callback of prepackOptions (source lines 27-37).
Input: the current errorsCaptured list and the diagnostic. Output: the new
errorsCaptured list, the lines printed to stdout by this call, and the
instruction returned to the compiler. The capture happens first, in every
branch, mirroring errorsCaptured.push(diag) at the top of the callback. -/
def errorHandler (captured : List Diagnostic) (diag : Diagnostic) :
    List Diagnostic × List String × HandlerResult :=
  let captured1 := captured ++ [diag]
  if diag.severity = "Information" then
    (captured1, [diag.message], HandlerResult.recover)
  else if diag.severity ≠ "Warning" then
    (captured1, [], HandlerResult.fail)
  else
    (captured1, [], HandlerResult.recover)

/-- JS String.prototype.toLowerCase restricted to ASCII, which is how the
source applies it to status tags. -/
def jsToLowerCase (s : String) : String :=
  String.mk (s.data.map Char.toLower)

/-- JS String.prototype.split with separator newline: split("\n").
Matches JS semantics: an empty string yields one empty piece, a trailing
newline yields a trailing empty piece. -/
def jsSplitNewlineAux : List Char → List Char → List String
  | [], acc => [String.mk acc.reverse]
  | c :: rest, acc =>
      if c = '\n' then String.mk acc.reverse :: jsSplitNewlineAux rest []
      else jsSplitNewlineAux rest (c :: acc)

/-- JS contents.split("\n") as used on the components list file. -/
def jsSplitNewline (s : String) : List String :=
  jsSplitNewlineAux s.data []

/-- JS String.prototype.padStart with the default space pad character:
pads on the left up to the target length. -/
def jsPadStart (s : String) (target : Nat) : String :=
  String.mk (List.replicate (target - s.length) ' ' ++ s.data)

/-- A value of the evaluation tree handed to printReactEvaluationGraph: a JS
array, a node record with name, status, message and a children field, or
undefined (JVal.undef), which also stands for an absent children field. -/
inductive JVal where
  | arr : List JVal → JVal
  | obj : String → String → String → JVal → JVal
  | undef : JVal

/-- The mutable state touched by the renderer: the components map, the
uniqueEvaluatedComponents counter and the stdout log. -/
structure RenderState where
  components : ComponentMap
  uniqueEvaluatedComponents : Nat
  stdout : List String
deriving DecidableEq, Repr

/-- The text of one rendered node line (source lines 99-108, colors
dropped): dash, name, and the parenthesized lower-cased status followed by
a colon and the message when the message is non-empty. -/
def renderLine (name status message : String) : String :=
  "- " ++ (name ++ " (" ++ status ++ (if message ≠ "" then ": " ++ message else "") ++ ")")

/-- The component tracking block of the renderer (source lines 110-120):
when the name is tracked and currently "missing", bump the counter and
replace the value with the one-element array holding the previous value
(the source wraps currentStatus, the string "missing", not the observed
status); when the value is already an array, push the observed status. -/
def trackComponent (name status : String) (st : RenderState) : RenderState :=
  match mapGet st.components name with
  | some CStatus.missing =>
      { st with
        uniqueEvaluatedComponents := st.uniqueEvaluatedComponents + 1,
        components := mapSet st.components name (CStatus.seq ["missing"]) }
  | some (CStatus.seq l) =>
      { st with components := mapSet st.components name (CStatus.seq (l ++ [status])) }
  | none => st

mutual

/-- printReactEvaluationGraph (source lines 93-124). An array recurses into
each element at the same depth; a node record renders its line, updates the
tracking state, logs the line padded by depth spaces, then recurses into
its children at depth + 2; undefined (an absent children field, or any
non-array non-record value) throws a TypeError when its status field is
read, modelled by none. -/
def printReactEvaluationGraph : JVal → Nat → RenderState → Option RenderState
  | JVal.arr cs, depth, st => printGraphList cs depth st
  | JVal.obj name status0 message children, depth, st =>
      let status := jsToLowerCase status0
      let line := renderLine name status message
      let st1 := trackComponent name status st
      let st2 := { st1 with stdout := st1.stdout ++ [jsPadStart line (line.length + depth)] }
      printReactEvaluationGraph children (depth + 2) st2
  | JVal.undef, _, _ => none

/-- The for-of loop of the array branch of printReactEvaluationGraph. -/
def printGraphList : List JVal → Nat → RenderState → Option RenderState
  | [], _, st => some st
  | c :: cs, depth, st =>
      match printReactEvaluationGraph c depth st with
      | some st1 => printGraphList cs depth st1
      | none => none

end

/-- One leaf record of the evaluation tree, with its depth (number of
children links from a root, array nesting not counted), its name, its
lower-cased status, and its message. -/
structure LeafRec where
  depth : Nat
  name : String
  status : String
  message : String
deriving DecidableEq, Repr

mutual

/-- The leaf records of a tree in document order, starting at depth k. -/
def leafRecs : JVal → Nat → List LeafRec
  | JVal.arr cs, k => leafRecsList cs k
  | JVal.obj name status0 message children, k =>
      { depth := k, name := name, status := jsToLowerCase status0, message := message }
        :: leafRecs children (k + 1)
  | JVal.undef, _ => []

/-- leafRecs over an array of trees. -/
def leafRecsList : List JVal → Nat → List LeafRec
  | [], _ => []
  | c :: cs, k => leafRecs c k ++ leafRecsList cs k

end

mutual

/-- A tree is well formed when every non-array value reached by the walk is
a node record, i.e. every chain of children fields ends in an array. -/
def wellFormed : JVal → Bool
  | JVal.arr cs => wellFormedList cs
  | JVal.obj _ _ _ children => wellFormed children
  | JVal.undef => false

/-- wellFormed over an array of trees. -/
def wellFormedList : List JVal → Bool
  | [] => true
  | c :: cs => wellFormed c && wellFormedList cs

end

/-- The (name, lower-cased status) pair of a leaf record, the data the
tracking block of the renderer consumes. -/
def leafKey (r : LeafRec) : String × String :=
  (r.name, r.status)

/-- The unpadded rendered line of a leaf record. -/
def lineOf (r : LeafRec) : String :=
  renderLine r.name r.status r.message

/-- The rendered line of a leaf record padded with twice its depth in
leading spaces, as the renderer prints it when called at depth 0. -/
def paddedLineOf (r : LeafRec) : String :=
  jsPadStart (lineOf r) ((lineOf r).length + 2 * r.depth)

/-- The effect of one leaf on the pair (components map, unique counter):
exactly the tracking block of the renderer, with the leaf given as its
(name, lower-cased status) key. -/
def compStep (p : ComponentMap × Nat) (x : String × String) : ComponentMap × Nat :=
  match mapGet p.1 x.1 with
  | some CStatus.missing => (mapSet p.1 x.1 (CStatus.seq ["missing"]), p.2 + 1)
  | some (CStatus.seq l) => (mapSet p.1 x.1 (CStatus.seq (l ++ [x.2])), p.2)
  | none => p

/-- The loop of readComponentsList (source lines 80-82): register every
name of the list into the map with value "missing". -/
def listToComponents (names : List String) : ComponentMap :=
  names.foldl (fun m n => mapSet m n CStatus.missing) []

/-- readComponentsList (source lines 75-84). The file system is modelled by
an Option: none when existsSync is false (the map stays empty and nothing
is raised), some contents when the file exists (split on newline and
register every piece). -/
def readComponentsList (file : Option String) : ComponentMap :=
  match file with
  | none => []
  | some contents => listToComponents (jsSplitNewline contents)

/-- The per-component status section of the report (source lines 133-142):
printed only when the map is non-empty, one line per entry in insertion
order, a cross mark when the value is still the string "missing" and a
check mark otherwise. -/
def statusSection (m : ComponentMap) : List String :=
  if m.length > 0 then
    "\n=== Status ===\n" :: m.map (fun p => (if p.2 = CStatus.missing then "✖" else "✔") ++ " " ++ p.1)
  else []

/-- The Optimized Components line (source lines 145-147), printed only when
the map is non-empty. -/
def optimizedComponentsLines (m : ComponentMap) (uniq : Nat) : List String :=
  if m.length > 0 then
    ["Optimized Components: " ++ Nat.repr uniq ++ "/" ++ Nat.repr m.length]
  else []

/-- The reactStatistics record returned by the compiler: the evaluation
tree and the three aggregate counters. -/
structure ReactStatistics where
  evaluatedRootNodes : JVal
  componentsEvaluated : Nat
  inlinedComponents : Nat
  optimizedTrees : Nat

/-- The serialized result of prepackSources, as read by compileSource. -/
structure Serialized where
  reactStatistics : ReactStatistics
  code : String

/-- The then-block of the pipeline (source lines 128-153): render the tree
from a fresh render state over the loaded map, then emit the status section
and the summary. Returns the full stdout line list, the final map and the
final unique counter; none when the renderer throws. Date arithmetic is
abstracted by the timeTaken parameter. -/
def renderReport (comps : ComponentMap) (stats : ReactStatistics) (timeTaken : Nat) :
    Option (List String × ComponentMap × Nat) :=
  match printReactEvaluationGraph stats.evaluatedRootNodes 0
      { components := comps, uniqueEvaluatedComponents := 0, stdout := [] } with
  | none => none
  | some st =>
      some
        (["\n=== Compilation Complete ===\n", "Evaluated Tree:"]
            ++ st.stdout
            ++ statusSection st.components
            ++ ["\n=== Summary ===\n"]
            ++ optimizedComponentsLines st.components st.uniqueEvaluatedComponents
            ++ ["Optimized Nodes: " ++ Nat.repr stats.componentsEvaluated,
                "Inlined Nodes: " ++ Nat.repr stats.inlinedComponents,
                "Optimized Trees: " ++ Nat.repr stats.optimizedTrees,
                "Compile time: " ++ Nat.repr timeTaken ++ "s\n"],
          st.components, st.uniqueEvaluatedComponents)

/-- Modelled from the spec: the external compiler entry point prepackSources
lives in lib/prepack-node.js, which is not part of the sources here. Per
the contract, it invokes the supplied error handler synchronously for every
diagnostic it produces, in order; when the handler returns Fail it honors
the instruction by aborting (throwing); otherwise it proceeds and finally
yields its internal outcome (a serialized result, or an internal error).
Arguments: the errorsCaptured list and stdout so far, the diagnostics the
compiler will emit, and the internal outcome. -/
def runPrepack (captured : List Diagnostic) (stdout : List String) :
    List Diagnostic → Except String Serialized →
    List Diagnostic × List String × Except String Serialized
  | [], internal => (captured, stdout, internal)
  | d :: ds, internal =>
      match errorHandler captured d with
      | (captured1, out, HandlerResult.recover) => runPrepack captured1 (stdout ++ out) ds internal
      | (captured1, out, HandlerResult.fail) => (captured1, stdout ++ out, Except.error "a fatal error occurred while prepacking")

/-- compileSource (source lines 58-73): invoke the compiler; on a throw,
print every captured diagnostic to the error stream in capture order and
rethrow; on success return the statistics and the code. Result: the stdout
lines of the handler, the diagnostics printed to stderr, and either the
thrown error or the (stats, code) pair. -/
def compileSource (diags : List Diagnostic) (internal : Except String Serialized) :
    List String × List Diagnostic × Except String (ReactStatistics × String) :=
  match runPrepack [] [] diags internal with
  | (captured, out, Except.error e) => (out, captured, Except.error e)
  | (_, out, Except.ok s) => (out, [], Except.ok (s.reactStatistics, s.code))

/-- The top-level promise chain outcome (source lines 126-158): a rejection
reaches the catch block, which prints the trace and calls process.exit(1);
on success the process ends with the implicit exit code 0. -/
def pipelineExitCode (diags : List Diagnostic) (internal : Except String Serialized) : Nat :=
  match (compileSource diags internal).2.2 with
  | Except.error _ => 1
  | Except.ok _ => 0

/-- The number of leading space characters of a character list. -/
def leadingSpaces : List Char → Nat
  | [] => 0
  | c :: rest => if c = ' ' then leadingSpaces rest + 1 else 0

/-- The number of leading space characters of a string, i.e. the
indentation of a printed line. -/
def countLeadingSpaces (s : String) : Nat :=
  leadingSpaces s.data

theorem mapGet_mapSet (m : ComponentMap) (k n : String) (v : CStatus) :
    mapGet (mapSet m k v) n = if k = n then some v else mapGet m n := by
  induction m with
  | nil =>
      by_cases h : k = n <;> simp [mapGet, mapSet, h]
  | cons p rest ih =>
      obtain ⟨k1, v1⟩ := p
      by_cases h1 : k1 = k
      · subst h1
        by_cases h2 : k1 = n <;> simp [mapGet, mapSet, h2]
      · by_cases h2 : k1 = n
        · subst h2
          have hkn : ¬ k = k1 := fun h => h1 h.symm
          simp [mapGet, mapSet, h1, hkn]
        · simp [mapGet, mapSet, h1, h2, ih]

theorem mapSet_fst_of_get (m : ComponentMap) (k : String) (v w : CStatus)
    (h : mapGet m k = some w) :
    (mapSet m k v).map Prod.fst = m.map Prod.fst := by
  induction m with
  | nil => simp [mapGet] at h
  | cons p rest ih =>
      obtain ⟨k1, v1⟩ := p
      by_cases h1 : k1 = k
      · simp [mapSet, h1]
      · simp only [mapGet, if_neg h1] at h
        simp [mapSet, h1, ih h]

theorem trackComponent_eq (name status : String) (st : RenderState) :
    trackComponent name status st =
      { st with
        components := (compStep (st.components, st.uniqueEvaluatedComponents) (name, status)).1,
        uniqueEvaluatedComponents := (compStep (st.components, st.uniqueEvaluatedComponents) (name, status)).2 } := by
  unfold trackComponent compStep
  cases h : mapGet st.components name with
  | none => simp
  | some v => cases v <;> simp

mutual

/-- Characterization of the renderer at even depth 2k: it succeeds exactly
on well formed trees, the resulting map and counter are the left fold of
compStep over the leaf keys in document order, and stdout gains the padded
leaf lines in document order. -/
def printGraph_char : ∀ (t : JVal) (k : Nat) (st : RenderState),
    printReactEvaluationGraph t (2 * k) st =
      (if wellFormed t then
        some { components := (List.foldl compStep (st.components, st.uniqueEvaluatedComponents) ((leafRecs t k).map leafKey)).1,
               uniqueEvaluatedComponents := (List.foldl compStep (st.components, st.uniqueEvaluatedComponents) ((leafRecs t k).map leafKey)).2,
               stdout := st.stdout ++ (leafRecs t k).map paddedLineOf }
      else none)
  | JVal.arr cs, k, st => by
      have ih := printGraphList_char cs k st
      simpa [printReactEvaluationGraph, leafRecs, wellFormed] using ih
  | JVal.obj name status0 message children, k, st => by
      have h2 : 2 * k + 2 = 2 * (k + 1) := by ring
      have ih := printGraph_char children (k + 1)
        { components := (compStep (st.components, st.uniqueEvaluatedComponents) (name, jsToLowerCase status0)).1,
          uniqueEvaluatedComponents := (compStep (st.components, st.uniqueEvaluatedComponents) (name, jsToLowerCase status0)).2,
          stdout := st.stdout ++ [jsPadStart (renderLine name (jsToLowerCase status0) message)
            ((renderLine name (jsToLowerCase status0) message).length + 2 * k)] }
      rw [printReactEvaluationGraph, trackComponent_eq, h2]
      rw [ih]
      by_cases hc : wellFormed children
      · simp only [wellFormed, hc, if_true, leafRecs, List.map_cons, List.foldl_cons, leafKey,
          paddedLineOf, lineOf, Prod.mk.eta, List.append_assoc, List.singleton_append]
      · simp [wellFormed, hc, leafRecs]
  | JVal.undef, k, st => by
      simp [printReactEvaluationGraph, wellFormed]

/-- printGraph_char for the array loop. -/
def printGraphList_char : ∀ (cs : List JVal) (k : Nat) (st : RenderState),
    printGraphList cs (2 * k) st =
      (if wellFormedList cs then
        some { components := (List.foldl compStep (st.components, st.uniqueEvaluatedComponents) ((leafRecsList cs k).map leafKey)).1,
               uniqueEvaluatedComponents := (List.foldl compStep (st.components, st.uniqueEvaluatedComponents) ((leafRecsList cs k).map leafKey)).2,
               stdout := st.stdout ++ (leafRecsList cs k).map paddedLineOf }
      else none)
  | [], k, st => by
      simp [printGraphList, leafRecsList, wellFormedList]
  | c :: cs, k, st => by
      have ihc := printGraph_char c k st
      rw [printGraphList, ihc]
      by_cases hc : wellFormed c
      · simp only [hc, if_true]
        have ihcs := printGraphList_char cs k
          { components := (List.foldl compStep (st.components, st.uniqueEvaluatedComponents) ((leafRecs c k).map leafKey)).1,
            uniqueEvaluatedComponents := (List.foldl compStep (st.components, st.uniqueEvaluatedComponents) ((leafRecs c k).map leafKey)).2,
            stdout := st.stdout ++ (leafRecs c k).map paddedLineOf }
        rw [ihcs]
        by_cases hcs : wellFormedList cs
        · simp [wellFormedList, hc, hcs, leafRecsList, List.map_append, List.foldl_append]
        · simp [wellFormedList, hc, hcs, leafRecsList]
      · simp [hc, wellFormedList]

end

/-- The renderer at the top-level call depth 0. -/
theorem printGraph_zero (t : JVal) (st : RenderState) :
    printReactEvaluationGraph t 0 st =
      (if wellFormed t then
        some { components := (List.foldl compStep (st.components, st.uniqueEvaluatedComponents) ((leafRecs t 0).map leafKey)).1,
               uniqueEvaluatedComponents := (List.foldl compStep (st.components, st.uniqueEvaluatedComponents) ((leafRecs t 0).map leafKey)).2,
               stdout := st.stdout ++ (leafRecs t 0).map paddedLineOf }
      else none) := by
  have h := printGraph_char t 0 st
  simpa using h

theorem compStep_counter (p : ComponentMap × Nat) (x : String × String) :
    (compStep p x).2 = p.2 + (if mapGet p.1 x.1 = some CStatus.missing then 1 else 0) := by
  unfold compStep
  cases h : mapGet p.1 x.1 with
  | none => simp [h]
  | some v => cases v <;> simp [h]

theorem compStep_fst_map (p : ComponentMap × Nat) (x : String × String) :
    (compStep p x).1.map Prod.fst = p.1.map Prod.fst := by
  unfold compStep
  cases h : mapGet p.1 x.1 with
  | none => simp
  | some v => cases v <;> simp [mapSet_fst_of_get _ _ _ _ h]

theorem foldl_compStep_fst_map (l : List (String × String)) :
    ∀ p : ComponentMap × Nat, (List.foldl compStep p l).1.map Prod.fst = p.1.map Prod.fst := by
  induction l with
  | nil => intro p; simp
  | cons x l ih => intro p; rw [List.foldl_cons, ih, compStep_fst_map]

theorem compStep_get_of_ne (p : ComponentMap × Nat) (x : String × String) (n : String)
    (h : ¬ n = x.1) : mapGet (compStep p x).1 n = mapGet p.1 n := by
  have hx : ¬ x.1 = n := fun hh => h hh.symm
  unfold compStep
  cases hg : mapGet p.1 x.1 with
  | none => rfl
  | some v => cases v <;> simp [mapGet_mapSet, hx]

theorem foldl_compStep_get_of_not_mem (l : List (String × String)) :
    ∀ (p : ComponentMap × Nat) (n : String), n ∉ l.map Prod.fst →
      mapGet (List.foldl compStep p l).1 n = mapGet p.1 n := by
  induction l with
  | nil => intro p n _; rfl
  | cons x l ih =>
      intro p n hn
      simp only [List.map_cons, List.mem_cons, not_or] at hn
      rw [List.foldl_cons, ih _ n hn.2, compStep_get_of_ne _ _ _ hn.1]

theorem compStep_not_missing (p : ComponentMap × Nat) (x : String × String) (n : String)
    (h : mapGet p.1 n ≠ some CStatus.missing) :
    mapGet (compStep p x).1 n ≠ some CStatus.missing := by
  by_cases hx : n = x.1
  · subst hx
    unfold compStep
    cases hg : mapGet p.1 x.1 with
    | none => exact h
    | some v =>
        cases v with
        | missing => exact absurd hg h
        | seq l => simp [mapGet_mapSet]
  · rw [compStep_get_of_ne _ _ _ hx]; exact h

theorem foldl_compStep_not_missing (l : List (String × String)) :
    ∀ (p : ComponentMap × Nat) (n : String),
      mapGet p.1 n ≠ some CStatus.missing →
      mapGet (List.foldl compStep p l).1 n ≠ some CStatus.missing := by
  induction l with
  | nil => intro p n h; exact h
  | cons x l ih =>
      intro p n h
      rw [List.foldl_cons]
      exact ih _ n (compStep_not_missing p x n h)

theorem compStep_seq_append (p : ComponentMap × Nat) (x : String × String) (n : String)
    (l : List String) (h : mapGet p.1 n = some (CStatus.seq l)) :
    ∃ tail, mapGet (compStep p x).1 n = some (CStatus.seq (l ++ tail)) := by
  by_cases hx : n = x.1
  · subst hx
    unfold compStep
    rw [h]
    exact ⟨[x.2], by simp [mapGet_mapSet]⟩
  · exact ⟨[], by rw [compStep_get_of_ne _ _ _ hx]; simpa using h⟩

theorem foldl_compStep_seq_append (leaves : List (String × String)) :
    ∀ (p : ComponentMap × Nat) (n : String) (l : List String),
      mapGet p.1 n = some (CStatus.seq l) →
      ∃ tail, mapGet (List.foldl compStep p leaves).1 n = some (CStatus.seq (l ++ tail)) := by
  induction leaves with
  | nil => intro p n l h; exact ⟨[], by simpa using h⟩
  | cons x leaves ih =>
      intro p n l h
      obtain ⟨t1, h1⟩ := compStep_seq_append p x n l h
      obtain ⟨t2, h2⟩ := ih (compStep p x) n (l ++ t1) h1
      rw [List.foldl_cons]
      exact ⟨t1 ++ t2, by simpa [List.append_assoc] using h2⟩

theorem foldl_compStep_nil (l : List (String × String)) (c : Nat) :
    List.foldl compStep (([] : ComponentMap), c) l = ([], c) := by
  induction l with
  | nil => rfl
  | cons x l ih => simpa [List.foldl_cons, compStep, mapGet] using ih

theorem listToComponents_get_aux (names : List String) :
    ∀ (m : ComponentMap) (n : String),
      mapGet (names.foldl (fun m nm => mapSet m nm CStatus.missing) m) n =
        if n ∈ names then some CStatus.missing else mapGet m n := by
  induction names with
  | nil => intro m n; simp
  | cons a names ih =>
      intro m n
      rw [List.foldl_cons, ih]
      by_cases hn : n ∈ names
      · simp [hn]
      · by_cases ha : a = n
        · subst ha; simp [hn, mapGet_mapSet]
        · have ha2 : ¬ n = a := fun hh => ha hh.symm
          simp [hn, ha, ha2, mapGet_mapSet]

theorem listToComponents_get (names : List String) (n : String) :
    mapGet (listToComponents names) n = if n ∈ names then some CStatus.missing else none := by
  unfold listToComponents
  rw [listToComponents_get_aux]
  rfl

theorem compStep_class (q : ComponentMap × Nat) (x : String × String) (n : String) :
    (mapGet (compStep q x).1 n = some CStatus.missing
        ↔ (mapGet q.1 n = some CStatus.missing ∧ ¬ n = x.1))
    ∧ (mapGet (compStep q x).1 n = none ↔ mapGet q.1 n = none) := by
  by_cases hx : n = x.1
  · subst hx
    unfold compStep
    cases hg : mapGet q.1 x.1 with
    | none => simp [hg]
    | some v => cases v <;> simp [mapGet_mapSet]
  · rw [compStep_get_of_ne _ _ _ hx]
    simp [hx]

theorem foldl_compStep_class (names : List String) (pre : List (String × String)) (n : String) :
    (mapGet (List.foldl compStep (listToComponents names, 0) pre).1 n = some CStatus.missing
        ↔ (n ∈ names ∧ n ∉ pre.map Prod.fst))
    ∧ (mapGet (List.foldl compStep (listToComponents names, 0) pre).1 n = none ↔ n ∉ names) := by
  induction pre using List.reverseRecOn with
  | nil => by_cases hn : n ∈ names <;> simp [listToComponents_get, hn]
  | append_singleton pre x ih =>
      obtain ⟨ihm, ihn⟩ := ih
      rw [List.foldl_append, List.foldl_cons, List.foldl_nil]
      obtain ⟨cm, cn⟩ := compStep_class (List.foldl compStep (listToComponents names, 0) pre) x n
      constructor
      · rw [cm, ihm]
        simp only [List.map_append, List.map_cons, List.map_nil, List.mem_append,
          List.mem_singleton, not_or]
        tauto
      · rw [cn, ihn]

theorem leadingSpaces_replicate (j : Nat) (l : List Char) :
    leadingSpaces (List.replicate j ' ' ++ l) = j + leadingSpaces l := by
  induction j with
  | zero => simp
  | succ i ih =>
      rw [List.replicate_succ, List.cons_append]
      show (if ' ' = ' ' then leadingSpaces (List.replicate i ' ' ++ l) + 1 else 0)
        = i + 1 + leadingSpaces l
      rw [if_pos rfl, ih]
      omega

theorem leadingSpaces_dash (l : List Char) : leadingSpaces ('-' :: l) = 0 := rfl

theorem countLeadingSpaces_renderLine (name status message : String) :
    countLeadingSpaces (renderLine name status message) = 0 := by
  unfold countLeadingSpaces renderLine
  rw [String.data_append]
  exact leadingSpaces_dash _

theorem countLeadingSpaces_paddedLineOf (r : LeafRec) :
    countLeadingSpaces (paddedLineOf r) = 2 * r.depth := by
  have h0 : leadingSpaces (lineOf r).data = 0 := countLeadingSpaces_renderLine r.name r.status r.message
  unfold paddedLineOf jsPadStart countLeadingSpaces
  have hsub : (lineOf r).length + 2 * r.depth - (lineOf r).length = 2 * r.depth := by omega
  rw [hsub]
  show leadingSpaces (List.replicate (2 * r.depth) ' ' ++ (lineOf r).data) = 2 * r.depth
  rw [leadingSpaces_replicate, h0]
  omega

theorem errorHandler_captured (captured : List Diagnostic) (d : Diagnostic) :
    (errorHandler captured d).1 = captured ++ [d] := by
  unfold errorHandler
  split_ifs <;> rfl

theorem errorHandler_fail_iff (captured : List Diagnostic) (d : Diagnostic) :
    (errorHandler captured d).2.2 = HandlerResult.fail
      ↔ (d.severity ≠ "Information" ∧ d.severity ≠ "Warning") := by
  unfold errorHandler
  split_ifs with h1 h2
  · simp [h1]
  · simp [h1, h2]
  · simp [h1, h2]

theorem runPrepack_fatal (diags : List Diagnostic) :
    ∀ (captured : List Diagnostic) (stdout : List String) (internal : Except String Serialized),
      (∃ d ∈ diags, d.severity ≠ "Information" ∧ d.severity ≠ "Warning") →
      ∃ processed,
        (runPrepack captured stdout diags internal).1 = captured ++ processed
        ∧ (∃ rest, processed ++ rest = diags)
        ∧ (∃ d ∈ processed, d.severity ≠ "Information" ∧ d.severity ≠ "Warning")
        ∧ ∃ e, (runPrepack captured stdout diags internal).2.2 = Except.error e := by
  induction diags with
  | nil => intro c s i h; simp at h
  | cons d ds ih =>
      intro captured stdout internal h
      rcases heh : errorHandler captured d with ⟨c1, out, r⟩
      have hc1 : c1 = captured ++ [d] := by
        have hcap := errorHandler_captured captured d
        rw [heh] at hcap
        exact hcap
      subst hc1
      cases r with
      | fail =>
          have hf : d.severity ≠ "Information" ∧ d.severity ≠ "Warning" := by
            have hiff := (errorHandler_fail_iff captured d).1
            rw [heh] at hiff
            exact hiff rfl
          refine ⟨[d], ?_, ⟨ds, rfl⟩, ⟨d, by simp, hf⟩,
            ⟨"a fatal error occurred while prepacking", ?_⟩⟩
          · simp [runPrepack, heh]
          · simp [runPrepack, heh]
      | recover =>
          have hnf : ¬(d.severity ≠ "Information" ∧ d.severity ≠ "Warning") := by
            intro hf
            have hiff := (errorHandler_fail_iff captured d).2 hf
            rw [heh] at hiff
            simp at hiff
          have hds : ∃ d2 ∈ ds, d2.severity ≠ "Information" ∧ d2.severity ≠ "Warning" := by
            rcases h with ⟨d2, hmem, hprop⟩
            rcases List.mem_cons.mp hmem with heq | hmem2
            · exact absurd hprop (heq ▸ hnf)
            · exact ⟨d2, hmem2, hprop⟩
          obtain ⟨processed, hp1, ⟨rest, hp2⟩, hp3, e, hp4⟩ :=
            ih (captured ++ [d]) (stdout ++ out) internal hds
          refine ⟨d :: processed, ?_, ⟨rest, by simp [hp2]⟩, ?_, ⟨e, ?_⟩⟩
          · simp [runPrepack, heh, hp1]
          · rcases hp3 with ⟨d3, hm, hpr⟩
            exact ⟨d3, List.mem_cons_of_mem _ hm, hpr⟩
          · simp [runPrepack, heh, hp4]

/-- The components map of the C1 scenario: tracked names Foo and Bar, both
initially missing. -/
def scenarioComponents : ComponentMap := listToComponents ["Foo", "Bar"]

/-- The evaluation tree of the C1 scenario: two leaves both named Foo, with
statuses inlined then bail-out. -/
def scenarioTree : JVal :=
  JVal.arr [JVal.obj "Foo" "inlined" "" (JVal.arr []),
            JVal.obj "Foo" "bail-out" "" (JVal.arr [])]

/-- The final render state of the C1 scenario. -/
def scenarioResult : Option RenderState :=
  printReactEvaluationGraph scenarioTree 0
    { components := scenarioComponents, uniqueEvaluatedComponents := 0, stdout := [] }

/-- C1 counterexample: in the scenario with components [Foo, Bar] and two
Foo leaves (inlined then bail-out), the final tracked status of Foo is NOT
the sequence [inlined, bail-out] claimed by the spec; the render run
completes and actually stores [missing, bail-out], because the first
occurrence wraps the previous value (the string missing) instead of the
observed status. -/
theorem claim1_counterexample :
    scenarioResult.map (fun st => mapGet st.components "Foo")
        ≠ some (some (CStatus.seq ["inlined", "bail-out"]))
    ∧ scenarioResult.map (fun st => mapGet st.components "Foo")
        = some (some (CStatus.seq ["missing", "bail-out"])) := by
  constructor
  · decide
  · decide

/-- C1 amended: on the first occurrence of a tracked name whose status is
missing, the render step replaces the status with the single-element
sequence containing the previous status string missing (the observed
status of the first occurrence is not recorded); in the scenario the final
tracked status of Foo is [missing, bail-out], Bar remains missing, and the
unique-evaluated counter is 1. -/
theorem claim1_amended :
    compStep (scenarioComponents, 0) ("Foo", "inlined")
        = (mapSet scenarioComponents "Foo" (CStatus.seq ["missing"]), 1)
    ∧ scenarioResult.map
        (fun st => (mapGet st.components "Foo", mapGet st.components "Bar",
                    st.uniqueEvaluatedComponents))
        = some (some (CStatus.seq ["missing", "bail-out"]), some CStatus.missing, 1) := by
  constructor
  · decide
  · decide

/-- C2: for every diagnostic passed to the error handler, the diagnostic is
appended to the ordered capture list in every case (before the decision);
Information severity prints the message and returns Recover; Warning
severity returns Recover without printing; any other severity returns
Fail. -/
theorem claim2_error_handler (captured : List Diagnostic) (d : Diagnostic) :
    (errorHandler captured d).1 = captured ++ [d]
    ∧ (d.severity = "Information" →
        (errorHandler captured d).2 = ([d.message], HandlerResult.recover))
    ∧ (d.severity = "Warning" →
        (errorHandler captured d).2 = ([], HandlerResult.recover))
    ∧ (d.severity ≠ "Information" → d.severity ≠ "Warning" →
        (errorHandler captured d).2 = ([], HandlerResult.fail)) := by
  refine ⟨errorHandler_captured captured d, ?_, ?_, ?_⟩
  · intro h
    simp [errorHandler, h]
  · intro h
    simp [errorHandler, h]
  · intro h1 h2
    simp [errorHandler, h1, h2]

/-- Witness for C2 at concrete diagnostics. -/
theorem claim2_witness :
    (errorHandler [] { severity := "Information", message := "hello" }).1
        = [{ severity := "Information", message := "hello" }]
    ∧ (errorHandler [] { severity := "Information", message := "hello" }).2
        = (["hello"], HandlerResult.recover)
    ∧ (errorHandler [] { severity := "FatalError", message := "boom" }).2
        = ([], HandlerResult.fail) :=
  ⟨(claim2_error_handler [] { severity := "Information", message := "hello" }).1,
   (claim2_error_handler [] { severity := "Information", message := "hello" }).2.1 rfl,
   (claim2_error_handler [] { severity := "FatalError", message := "boom" }).2.2.2
     (by decide) (by decide)⟩

/-- C3: along the leaf sequence of any evaluation tree, starting from a
component list where every tracked name is missing, the unique-evaluated
counter gains exactly 1 at an occurrence of a tracked name that has not
occurred before, and 0 at every other occurrence; and the final counter of
a successful render run is the fold of these steps over all leaves. -/
theorem claim3_unique_counter (names : List String) (t : JVal)
    (pre post : List (String × String)) (x : String × String)
    (hsplit : (leafRecs t 0).map leafKey = pre ++ x :: post) :
    (List.foldl compStep (listToComponents names, 0) (pre ++ [x])).2
      = (List.foldl compStep (listToComponents names, 0) pre).2
        + (if x.1 ∈ names ∧ x.1 ∉ pre.map Prod.fst then 1 else 0)
    ∧ ∀ st' : RenderState,
        printReactEvaluationGraph t 0
            { components := listToComponents names, uniqueEvaluatedComponents := 0, stdout := [] }
          = some st' →
        st'.uniqueEvaluatedComponents
          = (List.foldl compStep (listToComponents names, 0) ((leafRecs t 0).map leafKey)).2 := by
  constructor
  · rw [List.foldl_append, List.foldl_cons, List.foldl_nil, compStep_counter]
    simp only [(foldl_compStep_class names pre x.1).1]
  · intro st' hst
    rw [printGraph_zero] at hst
    by_cases hw : wellFormed t
    · rw [if_pos hw] at hst
      cases Option.some.inj hst
      rfl
    · rw [if_neg hw] at hst
      exact absurd hst (by simp)

/-- Witness for C3: in the two-Foo scenario tree with only Foo tracked, the
second occurrence of Foo adds 0 to the counter. -/
theorem claim3_witness :
    ((leafRecs scenarioTree 0).map leafKey
        = [("Foo", "inlined")] ++ ("Foo", "bail-out") :: [])
    ∧ (List.foldl compStep (listToComponents ["Foo"], 0)
          ([("Foo", "inlined")] ++ [("Foo", "bail-out")])).2
        = (List.foldl compStep (listToComponents ["Foo"], 0) [("Foo", "inlined")]).2
          + (if ("Foo", "bail-out").1 ∈ ["Foo"]
                ∧ ("Foo", "bail-out").1 ∉ [("Foo", "inlined")].map Prod.fst
             then 1 else 0) :=
  ⟨by decide,
   (claim3_unique_counter ["Foo"] scenarioTree [("Foo", "inlined")] []
      ("Foo", "bail-out") (by decide)).1⟩

/-- C4: over a successful render run, a tracked entry whose value is not
the string missing never has the value missing afterwards, and an entry
already holding a sequence only ever gets statuses appended to it. -/
theorem claim4_no_return_to_missing (t : JVal) (st st' : RenderState) (n : String)
    (h : printReactEvaluationGraph t 0 st = some st') :
    (mapGet st.components n ≠ some CStatus.missing →
      mapGet st'.components n ≠ some CStatus.missing)
    ∧ ∀ l, mapGet st.components n = some (CStatus.seq l) →
        ∃ tail, mapGet st'.components n = some (CStatus.seq (l ++ tail)) := by
  rw [printGraph_zero] at h
  by_cases hw : wellFormed t
  · rw [if_pos hw] at h
    cases Option.some.inj h
    exact ⟨foldl_compStep_not_missing ((leafRecs t 0).map leafKey)
             (st.components, st.uniqueEvaluatedComponents) n,
           fun l hl => foldl_compStep_seq_append ((leafRecs t 0).map leafKey)
             (st.components, st.uniqueEvaluatedComponents) n l hl⟩
  · rw [if_neg hw] at h
    exact absurd h (by simp)

/-- Witness for C4 at a concrete run: an entry already away from missing
stays away from missing. -/
theorem claim4_witness :
    mapGet [("A", CStatus.seq ["x", "inlined"])] "A" ≠ some CStatus.missing :=
  (claim4_no_return_to_missing (JVal.obj "A" "inlined" "" (JVal.arr []))
      { components := [("A", CStatus.seq ["x"])], uniqueEvaluatedComponents := 0, stdout := [] }
      { components := [("A", CStatus.seq ["x", "inlined"])], uniqueEvaluatedComponents := 0,
        stdout := ["- A (inlined)"] }
      "A" (by decide)).1 (by decide)

/-- C5: when the components list file is absent, the loader returns the
empty map (total, no error), the render run leaves the map empty, and the
report omits both the per-entry status lines and the Optimized Components
line. -/
theorem claim5_missing_components_file (stats : ReactStatistics) (timeTaken : Nat)
    (out : List String) (m : ComponentMap) (u : Nat)
    (h : renderReport (readComponentsList none) stats timeTaken = some (out, m, u)) :
    readComponentsList none = []
    ∧ m = []
    ∧ statusSection m = []
    ∧ optimizedComponentsLines m u = []
    ∧ out = ["\n=== Compilation Complete ===\n", "Evaluated Tree:"]
        ++ (leafRecs stats.evaluatedRootNodes 0).map paddedLineOf
        ++ ["\n=== Summary ===\n"]
        ++ ["Optimized Nodes: " ++ Nat.repr stats.componentsEvaluated,
            "Inlined Nodes: " ++ Nat.repr stats.inlinedComponents,
            "Optimized Trees: " ++ Nat.repr stats.optimizedTrees,
            "Compile time: " ++ Nat.repr timeTaken ++ "s\n"] := by
  unfold renderReport at h
  rw [printGraph_zero] at h
  by_cases hw : wellFormed stats.evaluatedRootNodes
  · rw [if_pos hw] at h
    simp only [readComponentsList, foldl_compStep_nil, Option.some.injEq, Prod.mk.injEq] at h
    obtain ⟨hout, hm, hu⟩ := h
    subst hm
    subst hu
    refine ⟨rfl, rfl, rfl, rfl, ?_⟩
    rw [← hout]
    simp [statusSection, optimizedComponentsLines]
  · rw [if_neg hw] at h
    exact absurd h (by simp)

/-- Witness for C5 at a concrete empty tree. -/
theorem claim5_witness :
    statusSection ([] : ComponentMap) = []
    ∧ optimizedComponentsLines ([] : ComponentMap) 0 = [] := by
  have h := claim5_missing_components_file
    { evaluatedRootNodes := JVal.arr [], componentsEvaluated := 1,
      inlinedComponents := 2, optimizedTrees := 3 } 0
    ["\n=== Compilation Complete ===\n", "Evaluated Tree:", "\n=== Summary ===\n",
     "Optimized Nodes: 1", "Inlined Nodes: 2", "Optimized Trees: 3", "Compile time: 0s\n"]
    [] 0 (by decide)
  exact ⟨h.2.2.1, h.2.2.2.1⟩

/-- C6: whenever some emitted diagnostic has a severity other than Warning
and Information, the compile step throws: compileSource ends in an error
which it rethrows, the diagnostics printed to the error stream are exactly
the captured ones, a prefix of the emission order (capture order), they
include a fatal-class diagnostic, and the top-level exit code is 1. -/
theorem claim6_fatal_diagnostics (diags : List Diagnostic) (internal : Except String Serialized)
    (h : ∃ d ∈ diags, d.severity ≠ "Information" ∧ d.severity ≠ "Warning") :
    (∃ e, (compileSource diags internal).2.2 = Except.error e)
    ∧ (∃ rest, (compileSource diags internal).2.1 ++ rest = diags)
    ∧ (∃ d ∈ (compileSource diags internal).2.1,
        d.severity ≠ "Information" ∧ d.severity ≠ "Warning")
    ∧ pipelineExitCode diags internal = 1 := by
  obtain ⟨processed, hp1, hp2, hp3, e, hp4⟩ := runPrepack_fatal diags [] [] internal h
  rcases hrp : runPrepack [] [] diags internal with ⟨captured, out, res⟩
  rw [hrp] at hp1 hp4
  simp only [List.nil_append] at hp1 hp4
  subst hp1
  subst hp4
  have hcs : compileSource diags internal = (out, captured, Except.error e) := by
    unfold compileSource
    rw [hrp]
  refine ⟨⟨e, by rw [hcs]⟩, ?_, ?_, ?_⟩
  · rw [hcs]
    exact hp2
  · rw [hcs]
    exact hp3
  · unfold pipelineExitCode
    rw [hcs]

/-- The diagnostics of the C6 witness run: a Warning then a fatal-class
diagnostic. -/
def c6Diags : List Diagnostic :=
  [{ severity := "Warning", message := "w" }, { severity := "FatalError", message := "boom" }]

/-- The internal outcome of the C6 witness run: the compiler would have
succeeded absent the fatal diagnostic. -/
def c6Internal : Except String Serialized :=
  Except.ok
    { reactStatistics :=
        { evaluatedRootNodes := JVal.arr [], componentsEvaluated := 0,
          inlinedComponents := 0, optimizedTrees := 0 },
      code := "x" }

/-- Witness for C6: a Warning followed by a FatalError diagnostic makes the
pipeline exit with code 1. -/
theorem claim6_witness :
    (∃ d ∈ c6Diags, d.severity ≠ "Information" ∧ d.severity ≠ "Warning")
    ∧ pipelineExitCode c6Diags c6Internal = 1 :=
  ⟨by decide, (claim6_fatal_diagnostics c6Diags c6Internal (by decide)).2.2.2⟩

/-- C7: a successful render run prints exactly the leaf lines in document
order, and the line of a leaf at depth d carries exactly 2 times d leading
spaces, independent of sibling count or branching. -/
theorem claim7_indentation (t : JVal) (st st' : RenderState)
    (h : printReactEvaluationGraph t 0 st = some st') :
    st'.stdout = st.stdout ++ (leafRecs t 0).map paddedLineOf
    ∧ ∀ r ∈ leafRecs t 0, countLeadingSpaces (paddedLineOf r) = 2 * r.depth := by
  rw [printGraph_zero] at h
  by_cases hw : wellFormed t
  · rw [if_pos hw] at h
    cases Option.some.inj h
    exact ⟨rfl, fun r _ => countLeadingSpaces_paddedLineOf r⟩
  · rw [if_neg hw] at h
    exact absurd h (by simp)

/-- Witness for C7 on a two-level tree: the nested leaf line is indented by
two spaces. -/
theorem claim7_witness :
    (["- A (x)", "  - B (y)"] : List String)
        = [] ++ (leafRecs (JVal.obj "A" "x" "" (JVal.arr [JVal.obj "B" "y" "" (JVal.arr [])])) 0).map paddedLineOf
    ∧ ∀ r ∈ leafRecs (JVal.obj "A" "x" "" (JVal.arr [JVal.obj "B" "y" "" (JVal.arr [])])) 0,
        countLeadingSpaces (paddedLineOf r) = 2 * r.depth :=
  claim7_indentation (JVal.obj "A" "x" "" (JVal.arr [JVal.obj "B" "y" "" (JVal.arr [])]))
    { components := [], uniqueEvaluatedComponents := 0, stdout := [] }
    { components := [], uniqueEvaluatedComponents := 0, stdout := ["- A (x)", "  - B (y)"] }
    (by decide)

/-- C8: on a successful render run with a non-empty tracked map, the output
contains exactly one status line per tracked entry, in original insertion
order (the final map has the same keys in the same order as the loaded
one), a cross mark when the entry is still the string missing and a check
mark otherwise, followed by the Optimized Components U/T line where U is
the final unique-evaluated counter and T the number of tracked entries;
entries whose name never occurs as a leaf keep their original value (so a
never-encountered tracked name keeps missing and gets the cross mark). -/
theorem claim8_summary (comps : ComponentMap) (stats : ReactStatistics) (timeTaken : Nat)
    (out : List String) (m : ComponentMap) (u : Nat)
    (h : renderReport comps stats timeTaken = some (out, m, u))
    (hne : comps ≠ []) :
    out = ["\n=== Compilation Complete ===\n", "Evaluated Tree:"]
        ++ (leafRecs stats.evaluatedRootNodes 0).map paddedLineOf
        ++ ("\n=== Status ===\n"
            :: m.map (fun p => (if p.2 = CStatus.missing then "✖" else "✔") ++ " " ++ p.1))
        ++ ["\n=== Summary ===\n",
            "Optimized Components: " ++ Nat.repr u ++ "/" ++ Nat.repr m.length]
        ++ ["Optimized Nodes: " ++ Nat.repr stats.componentsEvaluated,
            "Inlined Nodes: " ++ Nat.repr stats.inlinedComponents,
            "Optimized Trees: " ++ Nat.repr stats.optimizedTrees,
            "Compile time: " ++ Nat.repr timeTaken ++ "s\n"]
    ∧ m.map Prod.fst = comps.map Prod.fst
    ∧ m.length = comps.length
    ∧ (∀ n, n ∉ ((leafRecs stats.evaluatedRootNodes 0).map leafKey).map Prod.fst →
        mapGet m n = mapGet comps n) := by
  unfold renderReport at h
  rw [printGraph_zero] at h
  by_cases hw : wellFormed stats.evaluatedRootNodes
  · rw [if_pos hw] at h
    simp only [Option.some.injEq, Prod.mk.injEq] at h
    obtain ⟨hout, hm, hu⟩ := h
    have hkeys : m.map Prod.fst = comps.map Prod.fst := by
      rw [← hm]
      exact foldl_compStep_fst_map ((leafRecs stats.evaluatedRootNodes 0).map leafKey)
        (comps, 0)
    have hlen : m.length = comps.length := by
      have hc := congrArg List.length hkeys
      simpa using hc
    refine ⟨?_, hkeys, hlen, ?_⟩
    · have hmlen : m.length > 0 := by
        rw [hlen]
        exact List.length_pos.mpr hne
      rw [← hout, ← hm, ← hu]
      rw [← hm] at hmlen
      simp [statusSection, optimizedComponentsLines, hmlen]
    · intro n hn
      rw [← hm]
      exact foldl_compStep_get_of_not_mem ((leafRecs stats.evaluatedRootNodes 0).map leafKey)
        (comps, 0) n hn
  · rw [if_neg hw] at h
    exact absurd h (by simp)

/-- Witness for C8: one tracked entry, empty tree, so the entry keeps the
missing marker and the summary reports 0/1. -/
theorem claim8_witness :
    renderReport [("A", CStatus.missing)]
        { evaluatedRootNodes := JVal.arr [], componentsEvaluated := 1,
          inlinedComponents := 2, optimizedTrees := 3 } 4
      = some (["\n=== Compilation Complete ===\n", "Evaluated Tree:", "\n=== Status ===\n",
               "✖ A", "\n=== Summary ===\n", "Optimized Components: 0/1", "Optimized Nodes: 1",
               "Inlined Nodes: 2", "Optimized Trees: 3", "Compile time: 4s\n"],
              [("A", CStatus.missing)], 0)
    ∧ ([("A", CStatus.missing)] : ComponentMap).map Prod.fst
        = ([("A", CStatus.missing)] : ComponentMap).map Prod.fst := by
  have h := claim8_summary [("A", CStatus.missing)]
    { evaluatedRootNodes := JVal.arr [], componentsEvaluated := 1,
      inlinedComponents := 2, optimizedTrees := 3 } 4
    ["\n=== Compilation Complete ===\n", "Evaluated Tree:", "\n=== Status ===\n",
     "✖ A", "\n=== Summary ===\n", "Optimized Components: 0/1", "Optimized Nodes: 1",
     "Inlined Nodes: 2", "Optimized Trees: 3", "Compile time: 4s\n"]
    [("A", CStatus.missing)] 0 (by decide) (by decide)
  exact ⟨by decide, h.2.1⟩

/-- C9: when the components list file exists, every string produced by
splitting its text on the newline character, including empty strings from
trailing newlines, is registered in the map with status missing. -/
theorem claim9_components_registration (contents n : String)
    (h : n ∈ jsSplitNewline contents) :
    mapGet (readComponentsList (some contents)) n = some CStatus.missing := by
  unfold readComponentsList
  rw [listToComponents_get]
  exact if_pos h

/-- Witness for C9: a file with a trailing newline registers the empty
string. -/
theorem claim9_witness :
    ("" ∈ jsSplitNewline "Foo\nBar\n")
    ∧ mapGet (readComponentsList (some "Foo\nBar\n")) "" = some CStatus.missing :=
  ⟨by decide, claim9_components_registration "Foo\nBar\n" "" (by decide)⟩

/-- C10 counterexample: a leaf whose children field is absent (undefined)
makes the renderer throw (modelled by none) instead of completing the walk:
the recursive call reads the status field of undefined. -/
theorem claim10_counterexample :
    printReactEvaluationGraph (JVal.obj "A" "inlined" "" JVal.undef) 0
      { components := [], uniqueEvaluatedComponents := 0, stdout := [] } = none := by
  decide

/-- C10 amended: the renderer completes the full walk and returns normally
exactly on well formed trees, i.e. when every chain of children fields ends
in an array (possibly empty); when some children field is absent or any
other non-array, non-record value, the walk throws. -/
theorem claim10_amended (t : JVal) (st : RenderState) :
    (printReactEvaluationGraph t 0 st).isSome = wellFormed t := by
  rw [printGraph_zero]
  by_cases hw : wellFormed t
  · simp [hw]
  · simp only [Bool.not_eq_true] at hw
    simp [hw]

end DebugFbWww
